import Mathlib

/-!
Verification of the upload page-count script: a PDF page estimator (a scan
for the pattern `/Type[\s]*\/Page[^s]` over the file's binary content), a
persistent page-count cache keyed by server-assigned file identifiers, and
the event handlers that keep the quantity field synchronized with the
aggregate page count of all uploaded files.

File content is modelled as `List Char` (the result of `readAsBinaryString`,
read character by character). The backing store (`localStorage` under the
fixed key `uploadPageCountCache`) is modelled by the parse outcome of the
payload it holds; serialization of the cache mapping is the identity
embedding `Payload.value (JsValue.obj m)`, faithful because JSON
round-trips string-keyed mappings of nulls and numbers exactly.
-/

namespace PageCount

/-- The character class `\s` of JavaScript regular expressions:
tab, line feed, vertical tab, form feed, carriage return, space,
no-break space, ogham space mark, the en-quad..hair-space range,
line and paragraph separators, narrow no-break space, medium
mathematical space, ideographic space and the byte-order mark. -/
def isJsWs (c : Char) : Bool :=
  c == ' ' || c == '\t' || c == '\n' || c.val == 11 || c.val == 12 ||
  c == '\r' || c.val == 0x00A0 || c.val == 0x1680 ||
  (0x2000 ≤ c.val && c.val ≤ 0x200A) || c.val == 0x2028 || c.val == 0x2029 ||
  c.val == 0x202F || c.val == 0x205F || c.val == 0x3000 || c.val == 0xFEFF

/-- The literal `/Type` of the scan pattern. -/
def typeLit : List Char := ['/', 'T', 'y', 'p', 'e']

/-- The literal `/Page` of the scan pattern. -/
def pageLit : List Char := ['/', 'P', 'a', 'g', 'e']

/-- Strip a literal from the front of the input: `some` of the remainder
when the input starts with the literal, else `none`. -/
def stripLit : List Char → List Char → Option (List Char)
  | [], s => some s
  | _ :: _, [] => none
  | p :: ps, c :: cs => if c = p then stripLit ps cs else none

/-- One attempted match of the scan pattern `/Type[\s]*\/Page[^s]` at the
head of the input (the greedy `[\s]*` is equivalent to dropping the maximal
whitespace run, since `/Page` starts with a non-whitespace character):
`some` of the text after the match, or `none`. `[^s]` consumes one
character, so the match needs a character after `/Page`. -/
def matchMarker (s : List Char) : Option (List Char) :=
  match stripLit typeLit s with
  | none => none
  | some r1 =>
    match stripLit pageLit (r1.dropWhile isJsWs) with
    | none => none
    | some r2 =>
      match r2 with
      | [] => none
      | c :: r3 => if c = 's' then none else some r3

/-- The global regex scan with explicit fuel (one unit per character
position): at each position try a match; on success continue after the
consumed text, else slide one character. -/
def scanCountF : Nat → List Char → Nat
  | 0, _ => 0
  | _ + 1, [] => 0
  | fuel + 1, c :: cs =>
    match matchMarker (c :: cs) with
    | some rem => 1 + scanCountF fuel rem
    | none => scanCountF fuel cs

/-- Number of matches `fileContent.match(/\/Type[\s]*\/Page[^s]/g)` finds:
the leftmost non-overlapping scan over the whole content. -/
def scanCount (s : List Char) : Nat := scanCountF s.length s

/-- `countPdfPages` (modulo the suspending content read): count the scan's
matches; zero matches (`match` returns `null`) yields 1. -/
def countPdfPages (s : List Char) : Nat :=
  if scanCount s = 0 then 1 else scanCount s

/-! ### Declarative view of the scan pattern -/

/-- The pattern matches at position `i` of `s`. -/
def isMarkerPos (s : List Char) (i : Nat) : Bool :=
  (matchMarker (s.drop i)).isSome

/-- End position (in coordinates of `s`) of the match starting at `i`,
`i` itself when there is none. -/
def markerEnd (s : List Char) (i : Nat) : Nat :=
  match matchMarker (s.drop i) with
  | some rem => s.length - rem.length
  | none => i

/-- Number of positions of `s` at which the pattern matches. -/
def posCount (s : List Char) : Nat :=
  (List.range s.length).countP (fun i => isMarkerPos s i)

/-- No two pattern matches of `s` overlap: a later match starts at or after
the end of an earlier one. -/
def NonOverlap (s : List Char) : Prop :=
  ∀ i j : Nat, isMarkerPos s i = true → isMarkerPos s j = true → i < j →
    markerEnd s i ≤ j

/-- Decidable bounded form of `NonOverlap`. -/
def nonOverlapB (s : List Char) : Bool :=
  (List.range s.length).all fun i =>
    (List.range s.length).all fun j =>
      !(decide (i < j)) || !(isMarkerPos s i) || !(isMarkerPos s j) ||
        decide (markerEnd s i ≤ j)

/-! ### The spec's literal page-marker pattern -/

/-- The spec's page-marker text `/Type /Page` taken literally (a single
space between the two names). -/
def litMarker : List Char :=
  ['/', 'T', 'y', 'p', 'e', ' ', '/', 'P', 'a', 'g', 'e']

/-- The literal `/Type /Page` occurs at position `i` and is not followed by
an `s` (an occurrence at the very end of the content qualifies: nothing
follows it). -/
def isLitMarkerPos (s : List Char) (i : Nat) : Bool :=
  match stripLit litMarker (s.drop i) with
  | none => false
  | some [] => true
  | some (c :: _) => c != 's'

/-- Number of literal page-marker occurrences of `s`. -/
def litPosCount (s : List Char) : Nat :=
  (List.range s.length).countP (fun i => isLitMarkerPos s i)

/-- The spec's pages-container text `/Type /Pages` taken literally. -/
def litPages : List Char :=
  ['/', 'T', 'y', 'p', 'e', ' ', '/', 'P', 'a', 'g', 'e', 's']

/-- The literal `/Type /Pages` occurs at position `i`. -/
def isLitPagesPos (s : List Char) (i : Nat) : Bool :=
  (stripLit litPages (s.drop i)).isSome

/-- Number of literal pages-container occurrences of `s`. -/
def litPagesCount (s : List Char) : Nat :=
  (List.range s.length).countP (fun i => isLitPagesPos s i)

/-- The pages-container pattern with the scan's whitespace flexibility:
`/Type`, whitespace run, `/Pages`. -/
def matchPages (s : List Char) : Option (List Char) :=
  match stripLit typeLit s with
  | none => none
  | some r1 =>
    match stripLit (pageLit ++ ['s']) (r1.dropWhile isJsWs) with
    | none => none
    | some r2 => some r2

/-- The flexible pages-container pattern matches at position `i`. -/
def isPagesPos (s : List Char) (i : Nat) : Bool :=
  (matchPages (s.drop i)).isSome

/-- Number of positions matching the flexible pages-container pattern. -/
def pagesPosCount (s : List Char) : Nat :=
  (List.range s.length).countP (fun i => isPagesPos s i)

/-! ### The persistent page-count cache -/

/-- A value the cache holds for a file identifier: the JavaScript `null`
written by `setKey(cacheKey, null)` (counting in progress), or a page
count. -/
inductive CacheVal where
  | pending
  | count (n : Nat)
deriving DecidableEq, Repr

/-- The cache mapping: a JavaScript object keyed by server identifier,
modelled as an association list in key-insertion order (keys unique in any
state the program produces; the operations are total regardless). -/
abbrev CacheMap := List (String × CacheVal)

/-- A JavaScript value as `JSON.parse` can produce it, to the depth the
script inspects (`typeof parsed === "object" && parsed !== null`); an
object payload carries the cache mapping it decodes to. -/
inductive JsValue where
  | null
  | bool (b : Bool)
  | num (n : Int)
  | str (s : String)
  | obj (m : CacheMap)
deriving DecidableEq, Repr

/-- What `localStorage` holds under `uploadPageCountCache`: nothing
(`getItem` returns `null`, which `JSON.parse` coerces to the text `null`
and parses to the JavaScript `null`), an unparsable string (`JSON.parse`
throws), or a string parsing to a value. -/
inductive Payload where
  | missing
  | unparsable
  | value (v : JsValue)
deriving DecidableEq, Repr

/-- The assignment `this.cache = typeof parsed === "object" && parsed !==
null ? parsed : {}` applied to a parse result. -/
def loadParsed (v : JsValue) : CacheMap :=
  match v with
  | .obj m => m
  | _ => []

/-- `cache.load()`: read the payload, parse it, keep an object, reset to
the empty mapping otherwise (parse failure lands in the `catch` branch,
which also resets). Total: no failure escapes. -/
def load (p : Payload) : CacheMap :=
  match p with
  | .missing => loadParsed JsValue.null
  | .unparsable => []
  | .value v => loadParsed v

/-- `this.cache[key]`: `none` plays JavaScript's `undefined` for an absent
key. -/
def getKeyMap (c : CacheMap) (k : String) : Option CacheVal :=
  match c.find? (fun kv => kv.1 == k) with
  | some kv => some kv.2
  | none => none

/-- `this.cache[key] = value`: overwrite in place when the key is present,
append otherwise (JavaScript object key order). -/
def setKeyMap (c : CacheMap) (k : String) (v : CacheVal) : CacheMap :=
  if c.any (fun kv => kv.1 == k) then
    c.map (fun kv => if kv.1 == k then (k, v) else kv)
  else
    c ++ [(k, v)]

/-- `this.cache.hasOwnProperty(key)`. -/
def hasKeyMap (c : CacheMap) (k : String) : Bool :=
  c.any (fun kv => kv.1 == k)

/-- `delete this.cache[key]`. -/
def deleteKey (c : CacheMap) (k : String) : CacheMap :=
  c.filter (fun kv => kv.1 != k)

/-- `clearExcept(exceptKeys)` on the mapping: walk the snapshot of the
object's keys and delete each one not in `exceptKeys`. -/
def clearExceptMap (exceptKeys : List String) (c : CacheMap) : CacheMap :=
  (c.map Prod.fst).foldl
    (fun acc key => if exceptKeys.contains key then acc else deleteKey acc key) c

/-- The cache object together with its backing-store slot. -/
structure CacheState where
  cache : CacheMap
  stored : Payload
deriving DecidableEq, Repr

/-- `save()`: serialize the whole mapping into the backing store. -/
def save (st : CacheState) : CacheState :=
  { st with stored := Payload.value (JsValue.obj st.cache) }

/-- `setKey(key, value)`: mutate, then save. -/
def setKeySt (k : String) (v : CacheVal) (st : CacheState) : CacheState :=
  save { st with cache := setKeyMap st.cache k v }

/-- `clearExcept(exceptKeys)`: mutate, then save. -/
def clearExceptSt (exceptKeys : List String) (st : CacheState) : CacheState :=
  save { st with cache := clearExceptMap exceptKeys st.cache }

/-! ### Controller, analyzer and publisher -/

/-- A file entry of `pond.getFiles()`, exposing its server identifier. -/
structure PondFile where
  serverId : String
deriving DecidableEq, Repr

/-- The raw file a freshly added upload carries: its binary content and its
declared MIME type. -/
structure FileData where
  content : List Char
  declaredType : String
deriving DecidableEq, Repr

/-- The `detail` of a `FilePond:processfile` event: the server identifier,
and the raw file when present (`detail.file.file` is a real `File` only in
the session that uploaded it; after a reload it is just a string). -/
structure FileDetail where
  serverId : String
  rawContent : Option FileData
deriving DecidableEq, Repr

/-- `analyzeFile`: a PDF goes through the page scan, everything else counts
as one page. -/
def analyzeFile (fd : FileData) : Nat :=
  if fd.declaredType = "application/pdf" then countPdfPages fd.content else 1

/-- `cache.getKey(key) || 0`: an absent key (`undefined`) and the pending
marker (`null`) both coerce to 0. -/
def jsOr0 (v : Option CacheVal) : Nat :=
  match v with
  | some (.count n) => n
  | some .pending => 0
  | none => 0

/-- `getPageCount(files)`: read each live file's cached count (before
pruning), prune the cache to the live identifiers, and return the sum. -/
def getPageCountSt (files : List PondFile) (st : CacheState) :
    Nat × CacheState :=
  let cacheKeys := files.map (fun f => f.serverId)
  let pageCounts := cacheKeys.map (fun key => jsOr0 (getKeyMap st.cache key))
  let st2 := clearExceptSt cacheKeys st
  (pageCounts.foldl (fun acc pageCount => acc + pageCount) 0, st2)

/-- The quantity input element: its value (a numeral written as a string in
the DOM; modelled by the number) and how many `change` events it has
dispatched. -/
structure QuantityField where
  value : Nat
  changeCount : Nat
deriving DecidableEq, Repr

/-- The assignment `element.value = pageCount || 1` followed by
`element.dispatchEvent(new Event("change"))`. -/
def publishQuantity (pageCount : Nat) (f : QuantityField) : QuantityField :=
  { value := if pageCount = 0 then 1 else pageCount,
    changeCount := f.changeCount + 1 }

/-- Everything the script mutates: the cache with its store, and the
quantity element. -/
structure AppState where
  cacheSt : CacheState
  field : QuantityField
deriving DecidableEq, Repr

/-- `updatePageCount(files)`: recompute the aggregate (pruning the cache on
the way) and publish it. -/
def updatePageCount (files : List PondFile) (st : AppState) : AppState :=
  let r := getPageCountSt files st.cacheSt
  { cacheSt := r.2, field := publishQuantity r.1 st.field }

/-- The `FilePond:init` listener: republish from the current file list. -/
def onInit (files : List PondFile) (st : AppState) : AppState :=
  updatePageCount files st

/-- The `FilePond:removefile` listener: republish from the current file
list (which no longer holds the removed file). -/
def onRemoveFile (files : List PondFile) (st : AppState) : AppState :=
  updatePageCount files st

/-- The synchronous part of `addFile` up to the suspension point: bail out
when the raw file is absent, otherwise write the pending marker and hand
the analysis input over (`some` of key and file) for the asynchronous
part. -/
def addFileStart (d : FileDetail) (st : AppState) :
    AppState × Option (String × FileData) :=
  match d.rawContent with
  | none => (st, none)
  | some fd =>
      ({ st with cacheSt := setKeySt d.serverId CacheVal.pending st.cacheSt },
       some (d.serverId, fd))

/-- The continuation of `addFile` after `analyzeFile` resolves with
`pageCount`: only when the key is still cached, store the count and
republish from the file list the widget reports at that moment. -/
def addFileFinish (key : String) (pageCount : Nat) (files : List PondFile)
    (st : AppState) : AppState :=
  if hasKeyMap st.cacheSt.cache key then
    updatePageCount files
      { st with cacheSt := setKeySt key (CacheVal.count pageCount) st.cacheSt }
  else
    st

/-- The whole `FilePond:processfile` handling when nothing interleaves
between the suspension and the resumption: start, analyze, finish against
the file list the widget holds at completion. -/
def onProcessFile (d : FileDetail) (filesAtFinish : List PondFile)
    (st : AppState) : AppState :=
  match addFileStart d st with
  | (st1, none) => st1
  | (st1, some (k, fd)) => addFileFinish k (analyzeFile fd) filesAtFinish st1

/-! ### Sample states and contents for concrete instances -/

/-- A fresh page: empty cache, nothing stored, quantity field at 1. -/
def emptyAppState : AppState :=
  { cacheSt := { cache := [], stored := Payload.missing },
    field := { value := 1, changeCount := 0 } }

/-- A one-page PDF upload. -/
def samplePdf : FileData :=
  { content := "/Type /Pagex".data, declaredType := "application/pdf" }

/-- A state whose cache holds an entry for a file the widget no longer
reports. -/
def staleState : AppState :=
  { cacheSt := { cache := [("A", CacheVal.count 1)],
                 stored := Payload.missing },
    field := { value := 1, changeCount := 0 } }

/-- Content with one literal `/Type /Page` occurrence (followed by `x`)
and a second marker written without the space, which only the scan's
flexible whitespace matches. -/
def cexC3 : List Char := "/Type /Pagex/Type/Pagey".data

/-- Content whose two markers are both written without the space: no
literal `/Type /Page` occurrence at all. -/
def cexC4 : List Char := "/Type/Pagex/Type/Pagey".data

/-! ### Lemmas about the cache operations -/

theorem getKey_setKey (c : CacheMap) (k : String) (v : CacheVal) :
    getKeyMap (setKeyMap c k v) k = some v := by
  by_cases hany : (c.any fun kv => kv.1 == k) = true
  · rw [setKeyMap, if_pos hany]
    induction c with
    | nil => simp at hany
    | cons kv cs ih =>
      by_cases hk : (kv.1 == k) = true
      · simp [getKeyMap, List.find?, hk]
      · have hk' : (kv.1 == k) = false := by
          cases h : kv.1 == k
          · rfl
          · exact absurd h hk
        simp only [List.any_cons, hk', Bool.false_or] at hany
        have := ih hany
        simp only [List.map_cons, hk', Bool.false_eq_true, if_false]
        simpa [getKeyMap, List.find?, hk'] using this
  · rw [setKeyMap, if_neg hany]
    induction c with
    | nil => simp [getKeyMap, List.find?]
    | cons kv cs ih =>
      have hk' : (kv.1 == k) = false := by
        cases h : kv.1 == k
        · rfl
        · exact absurd (by simp [List.any_cons, h]) hany
      have hcs : ¬(cs.any fun kv => kv.1 == k) = true := by
        intro hc
        exact hany (by simp [List.any_cons, hc])
      simp only [List.cons_append]
      simpa [getKeyMap, List.find?, hk'] using ih hcs

theorem foldl_add_eq_sum (l : List Nat) (n : Nat) :
    l.foldl (fun acc x => acc + x) n = n + l.sum := by
  induction l generalizing n with
  | nil => simp
  | cons x xs ih => simp [List.foldl_cons, ih, Nat.add_assoc]

theorem foldl_clear_eq_filter (except ks : List String) (acc : CacheMap) :
    ks.foldl
      (fun a key => if except.contains key then a else deleteKey a key) acc =
      acc.filter (fun kv => except.contains kv.1 || !(ks.contains kv.1)) := by
  induction ks generalizing acc with
  | nil => simp
  | cons k ks ih =>
    simp only [List.foldl_cons]
    by_cases hk : except.contains k
    · have hk' : k ∈ except := by simpa using hk
      rw [if_pos hk, ih]
      apply List.filter_congr
      intro kv _
      by_cases hkv : kv.1 = k
      · simp [hkv, hk']
      · simp [List.contains_cons, hkv]
    · have hk' : k ∉ except := by simpa using hk
      rw [if_neg hk, ih]
      unfold deleteKey
      rw [List.filter_filter]
      apply List.filter_congr
      intro kv _
      by_cases hkv : kv.1 = k
      · simp [hkv, hk']
      · simp [List.contains_cons, hkv]

theorem clearExcept_eq_filter (except : List String) (c : CacheMap) :
    clearExceptMap except c = c.filter (fun kv => except.contains kv.1) := by
  unfold clearExceptMap
  rw [foldl_clear_eq_filter]
  apply List.filter_congr
  intro kv hkv
  have hm : kv.1 ∈ c.map Prod.fst := List.mem_map_of_mem Prod.fst hkv
  simp [hm]

theorem hasKey_filter_false (keys : List String) (c : CacheMap) (k : String)
    (h : keys.contains k = false) :
    hasKeyMap (c.filter (fun kv => keys.contains kv.1)) k = false := by
  unfold hasKeyMap
  rw [List.any_eq_false]
  intro kv hkv
  rw [List.mem_filter] at hkv
  intro hbeq
  rw [beq_iff_eq] at hbeq
  rw [hbeq] at hkv
  rw [h] at hkv
  exact absurd hkv.2 Bool.false_ne_true

theorem getPageCount_fst (files : List PondFile) (st : CacheState) :
    (getPageCountSt files st).1 =
      (files.map (fun f => jsOr0 (getKeyMap st.cache f.serverId))).sum := by
  simp only [getPageCountSt]
  rw [foldl_add_eq_sum, List.map_map, Nat.zero_add]
  rfl

theorem getPageCount_snd (files : List PondFile) (st : CacheState) :
    (getPageCountSt files st).2.cache =
      st.cache.filter
        (fun kv => (files.map (fun f => f.serverId)).contains kv.1) := by
  simp only [getPageCountSt, clearExceptSt, save]
  exact clearExcept_eq_filter _ _

/-! ### Lemmas about the pattern scan -/

theorem stripLit_append (p t : List Char) : stripLit p (p ++ t) = some t := by
  induction p with
  | nil => rfl
  | cons a ps ih => simp [stripLit, ih]

theorem stripLit_some_iff (p s r : List Char) :
    stripLit p s = some r ↔ s = p ++ r := by
  constructor
  · intro h
    induction p generalizing s with
    | nil =>
      simp only [stripLit, Option.some.injEq] at h
      rw [h, List.nil_append]
    | cons a ps ih =>
      cases s with
      | nil => exact absurd h (by simp [stripLit])
      | cons b bs =>
        by_cases hb : b = a
        · subst hb
          rw [stripLit, if_pos rfl] at h
          rw [ih bs h, List.cons_append]
        · rw [stripLit, if_neg hb] at h
          exact absurd h (by simp)
  · intro h
    rw [h]
    exact stripLit_append p r

theorem dropWhile_append_all (q : Char → Bool) (ws l : List Char)
    (h : ∀ x ∈ ws, q x = true) :
    (ws ++ l).dropWhile q = l.dropWhile q := by
  induction ws with
  | nil => rfl
  | cons a as ih =>
    rw [List.cons_append, List.dropWhile_cons,
      if_pos (h a (List.mem_cons_self a as)),
      ih (fun x hx => h x (by simp [hx]))]

theorem matchMarker_some_iff (s rem : List Char) :
    matchMarker s = some rem ↔
      ∃ ws c, (∀ x ∈ ws, isJsWs x = true) ∧ c ≠ 's' ∧
        s = typeLit ++ ws ++ pageLit ++ c :: rem := by
  constructor
  · intro h
    unfold matchMarker at h
    split at h
    · exact absurd h (by simp)
    · rename_i r1 h1
      split at h
      · exact absurd h (by simp)
      · rename_i r2 h2
        split at h
        · exact absurd h (by simp)
        · rename_i c r3
          split at h
          · exact absurd h (by simp)
          · rename_i hc
            rw [Option.some.injEq] at h
            refine ⟨r1.takeWhile isJsWs, c, ?_, hc, ?_⟩
            · intro x hx
              exact List.mem_takeWhile_imp hx
            · have hs : s = typeLit ++ r1 := (stripLit_some_iff _ _ _).mp h1
              have hd : r1.dropWhile isJsWs = pageLit ++ c :: r3 :=
                (stripLit_some_iff _ _ _).mp h2
              have hr1 : r1 =
                  r1.takeWhile isJsWs ++ (pageLit ++ c :: r3) := by
                rw [← hd, List.takeWhile_append_dropWhile]
              rw [hs, ← h]
              conv_lhs => rw [hr1]
              simp [List.append_assoc]
  · rintro ⟨ws, c, hws, hc, hsplit⟩
    subst hsplit
    have h1 : stripLit typeLit (typeLit ++ ws ++ pageLit ++ c :: rem) =
        some (ws ++ (pageLit ++ c :: rem)) := by
      rw [List.append_assoc, List.append_assoc]
      exact stripLit_append _ _
    have h2 : (ws ++ (pageLit ++ c :: rem)).dropWhile isJsWs =
        pageLit ++ c :: rem := by
      rw [dropWhile_append_all isJsWs ws _ hws]
      have hsh : (pageLit ++ c :: rem) =
          '/' :: ('P' :: 'a' :: 'g' :: 'e' :: c :: rem) := rfl
      rw [hsh, List.dropWhile_cons, if_neg (by decide)]
    have h3 : stripLit pageLit (pageLit ++ c :: rem) = some (c :: rem) :=
      stripLit_append _ _
    unfold matchMarker
    simp only [h1, h2, h3]
    rw [if_neg hc]

theorem matchMarker_length (t rem : List Char)
    (h : matchMarker t = some rem) : rem.length + 11 ≤ t.length := by
  rcases (matchMarker_some_iff t rem).mp h with ⟨ws, c, _, _, ht⟩
  subst ht
  simp only [typeLit, pageLit, List.length_append, List.length_cons,
    List.length_nil]
  omega

theorem drop_of_append (t r : List Char) :
    (t ++ r).drop ((t ++ r).length - r.length) = r := by
  have h : (t ++ r).length - r.length = t.length := by
    simp [List.length_append]
  rw [h, List.drop_left]

theorem matchMarker_drop (t rem : List Char)
    (h : matchMarker t = some rem) :
    t.drop (t.length - rem.length) = rem := by
  rcases (matchMarker_some_iff t rem).mp h with ⟨ws, c, _, _, ht⟩
  subst ht
  have hassoc : typeLit ++ ws ++ pageLit ++ c :: rem =
      (typeLit ++ ws ++ pageLit ++ [c]) ++ rem := by
    simp [List.append_assoc]
  rw [hassoc]
  exact drop_of_append _ _

theorem matchMarker_nil : matchMarker ([] : List Char) = none := rfl

theorem scanCountF_nil (fuel : Nat) : scanCountF fuel [] = 0 := by
  cases fuel <;> rfl

theorem scanCountF_congr (f1 : Nat) :
    ∀ (f2 : Nat) (s : List Char), s.length ≤ f1 → s.length ≤ f2 →
    scanCountF f1 s = scanCountF f2 s := by
  induction f1 with
  | zero =>
    intro f2 s h1 _
    rw [List.length_eq_zero.mp (Nat.le_zero.mp h1), scanCountF_nil,
      scanCountF_nil]
  | succ f1 ih =>
    intro f2 s h1 h2
    cases s with
    | nil => rw [scanCountF_nil, scanCountF_nil]
    | cons c cs =>
      cases f2 with
      | zero => exact absurd h2 (by simp)
      | succ f2 =>
        show (match matchMarker (c :: cs) with
          | some rem => 1 + scanCountF f1 rem
          | none => scanCountF f1 cs) =
          (match matchMarker (c :: cs) with
          | some rem => 1 + scanCountF f2 rem
          | none => scanCountF f2 cs)
        cases hm : matchMarker (c :: cs) with
        | some rem =>
          have hlen := matchMarker_length _ _ hm
          simp only [List.length_cons] at h1 h2 hlen
          show 1 + scanCountF f1 rem = 1 + scanCountF f2 rem
          rw [ih f2 rem (by omega) (by omega)]
        | none =>
          simp only [List.length_cons] at h1 h2
          show scanCountF f1 cs = scanCountF f2 cs
          exact ih f2 cs (by omega) (by omega)

theorem scanCount_cons_match (c : Char) (cs rem : List Char)
    (h : matchMarker (c :: cs) = some rem) :
    scanCount (c :: cs) = 1 + scanCount rem := by
  have hlen := matchMarker_length _ _ h
  show scanCountF (c :: cs).length (c :: cs) = 1 + scanCount rem
  rw [List.length_cons]
  show (match matchMarker (c :: cs) with
    | some r => 1 + scanCountF cs.length r
    | none => scanCountF cs.length cs) = 1 + scanCount rem
  rw [h]
  show 1 + scanCountF cs.length rem = 1 + scanCount rem
  rw [scanCountF_congr cs.length rem.length rem
    (by simp only [List.length_cons] at hlen; omega) (Nat.le_refl _)]
  rfl

theorem scanCount_cons_none (c : Char) (cs : List Char)
    (h : matchMarker (c :: cs) = none) :
    scanCount (c :: cs) = scanCount cs := by
  show scanCountF (c :: cs).length (c :: cs) = scanCount cs
  rw [List.length_cons]
  show (match matchMarker (c :: cs) with
    | some r => 1 + scanCountF cs.length r
    | none => scanCountF cs.length cs) = scanCount cs
  rw [h]
  show scanCountF cs.length cs = scanCount cs
  rfl

theorem isMarkerPos_nil (i : Nat) : isMarkerPos [] i = false := by
  unfold isMarkerPos
  rw [List.drop_nil, matchMarker_nil]
  rfl

theorem pos_lt_length (s : List Char) (i : Nat)
    (h : isMarkerPos s i = true) : i < s.length := by
  by_contra hge
  push_neg at hge
  unfold isMarkerPos at h
  rw [List.drop_eq_nil_of_le hge, matchMarker_nil] at h
  exact absurd h (by simp)

theorem posCount_cons (c : Char) (cs : List Char) :
    posCount (c :: cs) =
      (if isMarkerPos (c :: cs) 0 then 1 else 0) + posCount cs := by
  unfold posCount
  rw [List.length_cons, List.range_succ_eq_map, List.countP_cons,
    List.countP_map]
  have hshift : ((fun i => isMarkerPos (c :: cs) i) ∘ Nat.succ) =
      (fun j => isMarkerPos cs j) := rfl
  rw [hshift]
  cases h0 : isMarkerPos (c :: cs) 0 <;> simp [Nat.add_comm]

theorem posCount_drop_of_no_pos (d : Nat) :
    ∀ s : List Char, (∀ j, j < d → isMarkerPos s j = false) →
      posCount s = posCount (s.drop d) := by
  induction d with
  | zero =>
    intro s _
    rw [List.drop_zero]
  | succ d ih =>
    intro s h
    cases s with
    | nil => rw [List.drop_nil]
    | cons c cs =>
      rw [posCount_cons, h 0 (Nat.succ_pos d)]
      simp only [Bool.false_eq_true, if_false, Nat.zero_add]
      rw [List.drop_succ_cons]
      exact ih cs (fun j hj => h (j + 1) (by omega))

theorem isMarkerPos_drop (s : List Char) (d j : Nat) :
    isMarkerPos (s.drop d) j = isMarkerPos s (d + j) := by
  unfold isMarkerPos
  rw [List.drop_drop]

theorem nonOverlap_drop (s : List Char) (d : Nat) (h : NonOverlap s) :
    NonOverlap (s.drop d) := by
  intro i j hi hj hij
  rw [isMarkerPos_drop] at hi hj
  have hmain := h (d + i) (d + j) hi hj (by omega)
  unfold isMarkerPos at hi
  rcases Option.isSome_iff_exists.mp hi with ⟨rem, hm⟩
  have hdd : (s.drop d).drop i = s.drop (d + i) := List.drop_drop i d s
  have hm' : matchMarker ((s.drop d).drop i) = some rem := by
    rw [hdd]
    exact hm
  have hlen := matchMarker_length _ _ hm
  rw [List.length_drop] at hlen
  unfold markerEnd at hmain ⊢
  simp only [hm] at hmain
  simp only [hm', List.length_drop]
  omega

theorem scanCount_eq_posCount (s : List Char) (h : NonOverlap s) :
    scanCount s = posCount s := by
  cases s with
  | nil => rfl
  | cons c cs =>
    cases hm : matchMarker (c :: cs) with
    | none =>
      rw [scanCount_cons_none c cs hm, posCount_cons]
      have h0 : isMarkerPos (c :: cs) 0 = false := by
        unfold isMarkerPos
        rw [List.drop_zero, hm]
        rfl
      rw [h0]
      simp only [Bool.false_eq_true, if_false, Nat.zero_add]
      exact scanCount_eq_posCount cs (nonOverlap_drop (c :: cs) 1 h)
    | some rem =>
      have h0 : isMarkerPos (c :: cs) 0 = true := by
        unfold isMarkerPos
        rw [List.drop_zero, hm]
        rfl
      have hlen := matchMarker_length _ _ hm
      have hdead : ∀ j, j < (c :: cs).length - rem.length - 1 →
          isMarkerPos cs j = false := by
        intro j hj
        by_contra hpos
        have hpos' : isMarkerPos (c :: cs) (j + 1) = true := by
          cases hb : isMarkerPos cs j
          · exact absurd hb hpos
          · exact hb
        have := h 0 (j + 1) h0 hpos' (Nat.succ_pos j)
        unfold markerEnd at this
        rw [List.drop_zero] at this
        simp only [hm] at this
        omega
      have hdrop : cs.drop ((c :: cs).length - rem.length - 1) = rem := by
        have hd := matchMarker_drop _ _ hm
        have hco : (c :: cs).length - rem.length =
            ((c :: cs).length - rem.length - 1) + 1 := by
          simp only [List.length_cons] at hlen ⊢
          omega
        rw [hco, List.drop_succ_cons] at hd
        exact hd
      rw [scanCount_cons_match c cs rem hm, posCount_cons, h0]
      rw [posCount_drop_of_no_pos ((c :: cs).length - rem.length - 1) cs
        hdead, hdrop]
      have hnov : NonOverlap rem := by
        have := nonOverlap_drop (c :: cs)
          ((c :: cs).length - rem.length) h
        rw [matchMarker_drop _ _ hm] at this
        exact this
      rw [scanCount_eq_posCount rem hnov]
      simp
termination_by s.length
decreasing_by
  all_goals simp_all
  all_goals omega

theorem scanCount_eq_zero_of_no_pos (s : List Char)
    (h : ∀ i, isMarkerPos s i = false) : scanCount s = 0 := by
  cases s with
  | nil => rfl
  | cons c cs =>
    have h0 := h 0
    unfold isMarkerPos at h0
    rw [List.drop_zero] at h0
    cases hm : matchMarker (c :: cs) with
    | some rem =>
      rw [hm] at h0
      exact absurd h0 (by simp)
    | none =>
      rw [scanCount_cons_none c cs hm]
      exact scanCount_eq_zero_of_no_pos cs (fun i => h (i + 1))
termination_by s.length

theorem nonOverlap_of_b (s : List Char) (h : nonOverlapB s = true) :
    NonOverlap s := by
  intro i j hi hj hij
  have hik : i < s.length := pos_lt_length s i hi
  have hjk : j < s.length := pos_lt_length s j hj
  unfold nonOverlapB at h
  rw [List.all_eq_true] at h
  have hrow := h i (List.mem_range.mpr hik)
  rw [List.all_eq_true] at hrow
  have hcell := hrow j (List.mem_range.mpr hjk)
  simp [hi, hj, hij] at hcell
  exact hcell

end PageCount

namespace PageCount

/-! ## The claims -/

/-- C1: if the removal of file `F` (serverId `s`) is handled after `F`'s
analysis wrote the pending marker but before the analysis completes, then
the completion is a no-op — the final state is the post-removal state and
the cache has no entry for `s` — whatever page count the analysis returns
and whatever file list the widget reports at completion time. -/
theorem removal_during_analysis_wins (st0 : AppState) (s : String)
    (fd : FileData) (filesR filesF : List PondFile) (pc : Nat)
    (h : (filesR.map (fun f => f.serverId)).contains s = false) :
    addFileFinish s pc filesF
        (onRemoveFile filesR (addFileStart ⟨s, some fd⟩ st0).1) =
      onRemoveFile filesR (addFileStart ⟨s, some fd⟩ st0).1 ∧
    hasKeyMap
      (addFileFinish s pc filesF
        (onRemoveFile filesR
          (addFileStart ⟨s, some fd⟩ st0).1)).cacheSt.cache s = false := by
  have hcache :=
    getPageCount_snd filesR (setKeySt s CacheVal.pending st0.cacheSt)
  have hnokey :
      hasKeyMap
        (onRemoveFile filesR
          (addFileStart ⟨s, some fd⟩ st0).1).cacheSt.cache s = false := by
    show hasKeyMap
      (getPageCountSt filesR
        (setKeySt s CacheVal.pending st0.cacheSt)).2.cache s = false
    rw [hcache]
    exact hasKey_filter_false _ _ _ h
  have hfin :
      addFileFinish s pc filesF
          (onRemoveFile filesR (addFileStart ⟨s, some fd⟩ st0).1) =
        onRemoveFile filesR (addFileStart ⟨s, some fd⟩ st0).1 := by
    unfold addFileFinish
    rw [hnokey]
    simp
  exact ⟨hfin, by rw [hfin]; exact hnokey⟩

/-- Witness for C1 at a concrete state: an empty page, file `f1` added
with a one-page PDF, removed while the count is in flight, the analysis
resolving to 3 afterwards. -/
theorem removal_during_analysis_wins_witness :
    addFileFinish "f1" 3 []
        (onRemoveFile [] (addFileStart ⟨"f1", some samplePdf⟩
          emptyAppState).1) =
      onRemoveFile [] (addFileStart ⟨"f1", some samplePdf⟩
        emptyAppState).1 ∧
    hasKeyMap
      (addFileFinish "f1" 3 []
        (onRemoveFile [] (addFileStart ⟨"f1", some samplePdf⟩
          emptyAppState).1)).cacheSt.cache "f1" = false :=
  removal_during_analysis_wins emptyAppState "f1" samplePdf [] [] 3
    (by decide)

/-- C2 counterexample: handling `init` is not mutation-free — with a stale
cached entry and an empty live file list, the cache changes (the entry is
pruned). -/
theorem onInit_mutates_cache_cex :
    (onInit [] staleState).cacheSt.cache ≠ staleState.cacheSt.cache := by
  decide

/-- C2 amended: on `init` the controller republishes the aggregate computed
from the pre-existing cache values, and the only mutation is the aggregate
recompute's pruning — afterwards the cache is exactly its restriction to
the live file list's identifiers (no entry is added, live entries are
untouched; when every cached key is live the cache is unchanged). -/
theorem onInit_prunes_cache (files : List PondFile) (st : AppState) :
    (onInit files st).cacheSt.cache =
      st.cacheSt.cache.filter
        (fun kv => (files.map (fun f => f.serverId)).contains kv.1) ∧
    (onInit files st).field =
      publishQuantity
        ((files.map
          (fun f => jsOr0 (getKeyMap st.cacheSt.cache f.serverId))).sum)
        st.field := by
  constructor
  · exact getPageCount_snd files st.cacheSt
  · show publishQuantity (getPageCountSt files st.cacheSt).1 st.field = _
    rw [getPageCount_fst]

/-- C5: the aggregate recompute returns the sum over the live file list of
the cached counts (a pending or missing entry contributing 0, read before
pruning), and afterwards the cache holds exactly the entries whose keys
were already present and are in the live list: every other key is deleted
and no key is added. -/
theorem getPageCount_sum_and_prune (files : List PondFile)
    (st : CacheState) :
    (getPageCountSt files st).1 =
      (files.map (fun f => jsOr0 (getKeyMap st.cache f.serverId))).sum ∧
    (getPageCountSt files st).2.cache =
      st.cache.filter
        (fun kv => (files.map (fun f => f.serverId)).contains kv.1) :=
  ⟨getPageCount_fst files st, getPageCount_snd files st⟩

/-- C6: persistence round-trip — after `setKey(k, v)` a fresh `load()`
from the same backing store yields `getKey(k) = v`, for the pending marker
and for any page count. -/
theorem setKey_load_roundtrip (st : CacheState) (k : String) (v : CacheVal) :
    getKeyMap (load (setKeySt k v st).stored) k = some v := by
  simp only [setKeySt, save, load, loadParsed]
  exact getKey_setKey st.cache k v

/-- C7: publishing writes `max(aggregate, 1)` into the quantity field — an
aggregate of 0 is published as 1 — and fires one change notification; and
`updatePageCount` publishes exactly the recomputed aggregate. -/
theorem publish_clamps_and_notifies (pageCount : Nat) (f : QuantityField) :
    (publishQuantity pageCount f).value = max pageCount 1 ∧
    (publishQuantity pageCount f).changeCount = f.changeCount + 1 ∧
    ∀ (files : List PondFile) (st : AppState),
      (updatePageCount files st).field =
        publishQuantity (getPageCountSt files st.cacheSt).1 st.field := by
  refine ⟨?_, rfl, fun files st => rfl⟩
  simp only [publishQuantity]
  split
  · rename_i h
    rw [h]
    rfl
  · rename_i h
    omega

/-- C8: `load` is total and covers every payload: an object mapping loads
as itself; a missing payload, an unparsable payload, and every payload
parsing to a non-object value (null, boolean, number, string) load as the
empty mapping. -/
theorem load_cases :
    (∀ m : CacheMap, load (Payload.value (JsValue.obj m)) = m) ∧
    load Payload.missing = [] ∧
    load Payload.unparsable = [] ∧
    load (Payload.value JsValue.null) = [] ∧
    (∀ b, load (Payload.value (JsValue.bool b)) = []) ∧
    (∀ n, load (Payload.value (JsValue.num n)) = []) ∧
    (∀ s, load (Payload.value (JsValue.str s)) = []) :=
  ⟨fun _ => rfl, rfl, rfl, rfl, fun _ => rfl, fun _ => rfl, fun _ => rfl⟩

/-- C9: a processed-file event without raw content (the post-reload case)
takes no action: the full handling returns the state unchanged — cache,
backing store and quantity field included — and no analysis is started. -/
theorem processfile_without_content_noop (s : String) (st : AppState)
    (filesAtFinish : List PondFile) :
    onProcessFile ⟨s, none⟩ filesAtFinish st = st ∧
    addFileStart ⟨s, none⟩ st = (st, none) :=
  ⟨rfl, rfl⟩

/-- C3 counterexample: `cexC3` holds exactly one occurrence of the literal
page-marker `/Type /Page` not followed by an `s` and no occurrence of the
literal pages-container `/Type /Pages`, yet `countPdfPages` returns 2, not
1 — the scan's `[\s]*` also matches the second marker, written without the
space. -/
theorem literal_marker_count_cex :
    litPosCount cexC3 = 1 ∧ litPagesCount cexC3 = 0 ∧
    countPdfPages cexC3 = 2 ∧ countPdfPages cexC3 ≠ 1 := by
  refine ⟨by decide, by decide, by decide, by decide⟩

/-- C3 amended: for every content with exactly `k ≥ 1` positions matching
the scan's page-marker pattern — `/Type`, a possibly empty whitespace run,
`/Page`, then one character other than `s` — no two of which overlap, and
no position matching the pages-container pattern (`/Type`, whitespace run,
`/Pages`), `countPdfPages` returns `k`. -/
theorem countPdfPages_counts_markers (s : List Char) (k : Nat)
    (hnov : NonOverlap s) (hcount : posCount s = k) (hk : 1 ≤ k)
    (hpages : pagesPosCount s = 0) :
    countPdfPages s = k := by
  unfold countPdfPages
  rw [scanCount_eq_posCount s hnov, hcount, if_neg (by omega)]

/-- Witness for C3 at `/Type /Pagex`: one marker position, no overlap, no
pages-container position, and `countPdfPages` returns 1. -/
theorem countPdfPages_counts_markers_witness :
    countPdfPages (String.data "/Type /Pagex") = 1 :=
  countPdfPages_counts_markers (String.data "/Type /Pagex") 1
    (nonOverlap_of_b _ (by decide)) (by decide) (by decide) (by decide)

/-- C4 counterexample: `cexC4` holds no occurrence of the literal
page-marker `/Type /Page` at all (both markers are written without the
space), yet `countPdfPages` returns 2, not 1. -/
theorem zero_literal_markers_cex :
    litPosCount cexC4 = 0 ∧ countPdfPages cexC4 = 2 ∧
    countPdfPages cexC4 ≠ 1 := by
  refine ⟨by decide, by decide, by decide⟩

/-- C4 amended: for every content with no position matching the scan's
page-marker pattern (`/Type`, whitespace run, `/Page`, one character other
than `s`), `countPdfPages` returns exactly 1 — never 0. -/
theorem countPdfPages_no_marker_eq_one (s : List Char)
    (h : ∀ i, isMarkerPos s i = false) : countPdfPages s = 1 := by
  unfold countPdfPages
  rw [scanCount_eq_zero_of_no_pos s h]
  rfl

/-- Witness for C4 at the empty content: no position matches, and
`countPdfPages` returns 1. -/
theorem countPdfPages_no_marker_eq_one_witness :
    countPdfPages [] = 1 :=
  countPdfPages_no_marker_eq_one [] (fun i => by cases i <;> rfl)

/-- C10: the scan pattern matches at a position exactly when the content
there reads `/Type`, then a (possibly empty) run of whitespace characters,
then `/Page`, then one further character that is not `s`; consequently an
occurrence of `/Type /Page` ending the content is never a match (no
character follows), and `countPdfPages` returns the scan's match count,
with zero falling back to 1. -/
theorem marker_characterization :
    (∀ (s : List Char) (i : Nat), isMarkerPos s i = true ↔
      ∃ ws c rest, (∀ x ∈ ws, isJsWs x = true) ∧ c ≠ 's' ∧
        s.drop i = typeLit ++ ws ++ pageLit ++ c :: rest) ∧
    (∀ p : List Char, isMarkerPos (p ++ litMarker) p.length = false) ∧
    (∀ s : List Char, countPdfPages s =
      if scanCount s = 0 then 1 else scanCount s) := by
  refine ⟨?_, ?_, fun s => rfl⟩
  · intro s i
    unfold isMarkerPos
    rw [Option.isSome_iff_exists]
    constructor
    · rintro ⟨rem, hm⟩
      rcases (matchMarker_some_iff _ _).mp hm with ⟨ws, c, hws, hc, hsplit⟩
      exact ⟨ws, c, rem, hws, hc, hsplit⟩
    · rintro ⟨ws, c, rest, hws, hc, hsplit⟩
      exact ⟨rest, (matchMarker_some_iff _ _).mpr ⟨ws, c, hws, hc, hsplit⟩⟩
  · intro p
    unfold isMarkerPos
    rw [List.drop_left]
    rfl

end PageCount
